import Mathlib

/-!
Verification of the CoreBot addon-orchestration runtime as documented in this
repository (docs/ and reference/). The repository ships documentation only; the
runtime itself lives in the separate CoreBot implementation. Every definition
below is therefore a shallow embedding modelled from the specification and the
reference pages, faithful to their words: the interaction router, the event bus
(AddonBus), the protection layer, the discovery scanner, the priority ordering,
and the intent (capability) aggregator.
-/

namespace CoreBot

/-! ## Generic list helpers -/

/-- Concatenation of a list of lists (the flattening used by the scanner and
the priority grouping). -/
def concatAll : List (List α) → List α
  | [] => []
  | l :: ls => l ++ concatAll ls

/-! ## A small regular-expression engine

Modelled from the spec: the Interaction Router's third match strategy
interprets the registered pattern as a regular expression and tests the
incoming identifier against it (unanchored search, like a JS RegExp test).
The implementation is not in this repository; the engine below (Brzozowski
derivatives) stands in for the host regex engine. -/

/-- Regular expressions over characters: empty language, empty word, a single
character, any character, a decimal digit, alternation, concatenation and
Kleene star. -/
inductive Regex where
  | emp
  | eps
  | chr (c : Char)
  | anyc
  | digit
  | alt (r s : Regex)
  | cat (r s : Regex)
  | star (r : Regex)
deriving Repr, DecidableEq

/-- Does the regular expression accept the empty word? -/
def Regex.nullable : Regex → Bool
  | .emp => false
  | .eps => true
  | .chr _ => false
  | .anyc => false
  | .digit => false
  | .alt r s => r.nullable || s.nullable
  | .cat r s => r.nullable && s.nullable
  | .star _ => true

/-- Brzozowski derivative of a regular expression by one character. -/
def Regex.deriv : Regex → Char → Regex
  | .emp, _ => .emp
  | .eps, _ => .emp
  | .chr c, a => if a = c then .eps else .emp
  | .anyc, _ => .eps
  | .digit, a => if a.isDigit then .eps else .emp
  | .alt r s, a => .alt (r.deriv a) (s.deriv a)
  | .cat r s, a =>
      if r.nullable then .alt (.cat (r.deriv a) s) (s.deriv a)
      else .cat (r.deriv a) s
  | .star r, a => .cat (r.deriv a) (.star r)

/-- Does the regular expression match some (possibly empty) front part of the
character list? -/
def Regex.matchesFront (r : Regex) : List Char → Bool
  | [] => r.nullable
  | c :: cs => r.nullable || (r.deriv c).matchesFront cs

/-- Unanchored regex search: does the expression match somewhere inside the
character list (the semantics of a JS RegExp test)? -/
def Regex.search (r : Regex) : List Char → Bool
  | [] => r.nullable
  | c :: cs => r.matchesFront (c :: cs) || r.search cs

/-! ## Interaction Router (InteractionRegistry)

Modelled from the spec: a registration table mapping UI-callback identifiers
to handlers with three matching strategies (exact byte-equality, starts-with,
regex) and priority-ordered, short-circuiting dispatch; ties in priority are
broken by registration order, and a thrown handler is caught, logged with the
entry's source module name, and iteration continues. -/

/-- The three matching strategies of an interaction registration. The regex
variant stores the compiled pattern. -/
inductive Matcher where
  | mExact (p : String)
  | mStarts (p : String)
  | mRegex (r : Regex)
deriving Repr, DecidableEq

/-- Does a matcher accept an incoming customId? Exact requires byte-equality,
the starts-with strategy requires the identifier to start with the pattern,
and regex requires an (unanchored) regex match. -/
def Matcher.accepts : Matcher → String → Bool
  | .mExact p, s => p == s
  | .mStarts p, s => p.data.isPrefixOf s.data
  | .mRegex r, s => r.search s.data

/-- One interaction-handler registration: matcher, priority, handler identity,
source module name, and the registration index (position in registration
order). -/
structure InteractionRegistration where
  matcher : Matcher
  priority : Int
  hid : Nat
  source : String
  regIdx : Nat
deriving Repr, DecidableEq

/-- Append a registration to the table, assigning the next registration index;
duplicate registrations are both retained. -/
def register (reg : List InteractionRegistration) (m : Matcher) (priority : Int)
    (hid : Nat) (source : String) : List InteractionRegistration :=
  reg ++ [⟨m, priority, hid, source, reg.length⟩]

/-- Insert an entry into a descending-priority list, placing it before the
first entry of lower-or-equal priority (so that among equal priorities the
earlier-registered entry, inserted later during the fold, comes first). -/
def insertByPriority (e : InteractionRegistration) :
    List InteractionRegistration → List InteractionRegistration
  | [] => [e]
  | x :: xs =>
      if x.priority ≤ e.priority then e :: x :: xs
      else x :: insertByPriority e xs

/-- Stable sort of the registration table by descending priority. -/
def sortByPriority (reg : List InteractionRegistration) :
    List InteractionRegistration :=
  reg.foldr insertByPriority []

/-- The entries eligible for an incoming identifier: sorted by descending
priority (ties in registration order) and filtered to those whose matcher
accepts the identifier. Priority is evaluated before match specificity: the
ordering never looks at the matcher. -/
def matchingEntries (reg : List InteractionRegistration) (id : String) :
    List InteractionRegistration :=
  (sortByPriority reg).filter (fun e => e.matcher.accepts id)

/-- Outcome of invoking one interaction handler: returned true (handled),
returned anything else, or raised an exception. -/
inductive HandlerRes where
  | retTrue
  | retOther
  | raised

/-- Log line produced when a handler raises: names the source module. -/
def handlerErrLog (source : String) : String :=
  "Interaction handler from " ++ source ++ " threw, trying next handler"

/-- Iterate a list of entries in order, invoking each handler (its behaviour
given by the environment): a handler returning true stops iteration, any
other return value continues, and a raised exception is caught, logged with
the source module name, and iteration continues. Returns the invoked handler
ids and the error log. -/
def dispatchList (env : Nat → HandlerRes) :
    List InteractionRegistration → List Nat × List String
  | [] => ([], [])
  | e :: es =>
      match env e.hid with
      | .retTrue => ([e.hid], [])
      | .retOther =>
          let r := dispatchList env es
          (e.hid :: r.1, r.2)
      | .raised =>
          let r := dispatchList env es
          (e.hid :: r.1, handlerErrLog e.source :: r.2)

/-- Dispatch an interaction: run the matching entries in priority order with
short-circuit on a true return. If no entry matches this is a no-op. -/
def dispatch (reg : List InteractionRegistration) (id : String)
    (env : Nat → HandlerRes) : List Nat × List String :=
  dispatchList env (matchingEntries reg id)

/-- Replace every raised outcome of a handler environment by a plain non-true
return: a raising handler must behave, for the continuation of the dispatch,
exactly like a handler that returned nothing. -/
def envNoRaise (env : Nat → HandlerRes) : Nat → HandlerRes :=
  fun n =>
    match env n with
    | .raised => .retOther
    | r => r

/-! ## Event Bus (AddonBus)

Modelled from the spec: a synchronous, namespaced publish/subscribe bus.
emitEvent looks up the key, synchronously invokes every current subscriber in
registration order, and returns whether at least one subscriber was invoked;
a once subscription is removed immediately after its first invocation, even
if that invocation throws; a listener exception is caught and logged with the
key as context and does not prevent later listeners of the same emission. -/

/-- One subscription on the bus: listener identity and a one-shot flag. -/
structure BusSub where
  id : Nat
  once : Bool

/-- The bus state: a mapping from namespaced event key to the ordered list of
subscriptions (insertion order is the invocation order), plus the running
emission counter. -/
structure AddonBus where
  listeners : List (String × List BusSub)
  totalEmissions : Nat

/-- The empty bus. -/
def AddonBus.empty : AddonBus := ⟨[], 0⟩

/-- Current subscriptions for a key (empty when the key was never used). -/
def getSubs (ls : List (String × List BusSub)) (key : String) : List BusSub :=
  match ls.find? (fun p => p.1 == key) with
  | some p => p.2
  | none => []

/-- Replace the subscription list stored for a key (inserting the key when it
is absent). -/
def setSubs : List (String × List BusSub) → String → List BusSub →
    List (String × List BusSub)
  | [], key, subs => [(key, subs)]
  | p :: ps, key, subs =>
      if p.1 == key then (key, subs) :: ps else p :: setSubs ps key subs

/-- onEvent: register a persistent subscription at the end of the key's list. -/
def onEvent (b : AddonBus) (key : String) (id : Nat) : AddonBus :=
  ⟨setSubs b.listeners key (getSubs b.listeners key ++ [⟨id, false⟩]),
   b.totalEmissions⟩

/-- onceEvent: register a one-shot subscription at the end of the key's list. -/
def onceEvent (b : AddonBus) (key : String) (id : Nat) : AddonBus :=
  ⟨setSubs b.listeners key (getSubs b.listeners key ++ [⟨id, true⟩]),
   b.totalEmissions⟩

/-- offEvent: remove a specific listener of a key by identity. -/
def offEvent (b : AddonBus) (key : String) (id : Nat) : AddonBus :=
  ⟨setSubs b.listeners key
     ((getSubs b.listeners key).filter (fun s => s.id != id)),
   b.totalEmissions⟩

/-- Log line for a listener that threw during an emission: carries the event
key as context. -/
def listenerErrLog (key : String) (id : Nat) : String :=
  "Error in listener " ++ toString id ++ " for event " ++ key

/-- Result of one emission: the listeners invoked (in order), the error log
for listeners that threw, whether any listener was invoked, and the new bus
state. -/
structure EmitResult where
  invoked : List Nat
  logs : List String
  handled : Bool
  bus : AddonBus

/-- emitEvent: invoke every current subscriber of the key in registration
order (the environment tells which listeners throw; a throwing listener is
caught and logged and later listeners still run), drop the once
subscriptions regardless of whether their invocation threw, and report
whether at least one subscriber was invoked. -/
def emitEvent (b : AddonBus) (key : String) (throws : Nat → Bool) : EmitResult :=
  let subs := getSubs b.listeners key
  { invoked := subs.map BusSub.id
    logs := (subs.filter (fun s => throws s.id)).map
      (fun s => listenerErrLog key s.id)
    handled := !subs.isEmpty
    bus := ⟨setSubs b.listeners key (subs.filter (fun s => !s.once)),
            b.totalEmissions + 1⟩ }

/-! ## Protection Layer

Modelled from the spec: guard/protect wraps an arbitrary operation with two
independent, individually toggle-able checks. Duplicate suppression fails a
call whose (actorId, actionId, extraData) key is currently in flight with a
REQUEST_DUPLICATE error; the in-flight marker is released when the operation
settles or after the configured duration, whichever comes first. Rate
limiting fails a call that exceeded the per-action limit inside the sliding
window with a RATE_LIMITED error carrying a positive retryAfter in seconds.
Both checks run before the operation starts; a rejected call leaves the
state unchanged. Times are in milliseconds. -/

/-- Options of a protected call, with the documented defaults. -/
structure GuardOptions where
  checkDuplicate : Bool
  checkRateLimit : Bool
  customLimit : Option Nat
  duration : Nat
  data : String

/-- The documented defaults: both checks enabled, default rate limit, a
5000 ms duplicate-tracking duration and empty extra data. -/
def GuardOptions.default : GuardOptions :=
  { checkDuplicate := true
    checkRateLimit := true
    customLimit := none
    duration := 5000
    data := "" }

/-- An in-flight marker: the (actor, action, extra data) key and the time at
which the marker expires on its own. -/
structure InflightEntry where
  actor : String
  action : String
  data : String
  expiry : Nat

/-- One counted call in the rate window. -/
structure HitEntry where
  actor : String
  action : String
  time : Nat

/-- The protection layer state: in-flight markers, the sliding window of
counted calls, the per-action limit overrides, the default limit and the
window length in milliseconds. -/
structure ProtState where
  inflight : List InflightEntry
  hits : List HitEntry
  limits : List (String × Nat)
  defaultLimit : Nat
  windowMs : Nat

/-- The distinguishable errors surfaced to the caller of a protected call. -/
inductive ProtError where
  | requestDuplicate
  | rateLimited (retryAfter : Nat)
deriving Repr, DecidableEq

/-- Does a live (non-expired) in-flight marker exist for the key? -/
def isInflight (s : ProtState) (actor action data : String) (now : Nat) : Bool :=
  s.inflight.any (fun e =>
    e.actor == actor && e.action == action && e.data == data &&
      decide (now < e.expiry))

/-- The effective rate limit of an action: an explicit per-call override wins,
then a setLimit override, then the default. -/
def limitFor (s : ProtState) (action : String) (customLimit : Option Nat) : Nat :=
  match customLimit with
  | some l => l
  | none =>
      match s.limits.find? (fun p => p.1 == action) with
      | some p => p.2
      | none => s.defaultLimit

/-- setLimit: override the default limit of one action for the rest of the
process lifetime. -/
def setLimit (s : ProtState) (action : String) (limit : Nat) : ProtState :=
  { s with limits := (action, limit) :: s.limits }

/-- The counted calls of the actor and action still inside the sliding window
at the given time. -/
def recentHits (s : ProtState) (actor action : String) (now : Nat) :
    List HitEntry :=
  s.hits.filter (fun h =>
    h.actor == actor && h.action == action && decide (now < h.time + s.windowMs))

/-- Least element of a list of times (0 for the empty list). -/
def minTime : List Nat → Nat
  | [] => 0
  | t :: ts => ts.foldl min t

/-- Seconds until the oldest counted call leaves the window, rounded up. -/
def retryAfterSec (oldest windowMs now : Nat) : Nat :=
  (oldest + windowMs - now + 999) / 1000

/-- Outcome of the checks that guard a protected call: either the call is
rejected before the operation starts, or the operation starts. -/
inductive GuardOutcome where
  | rejected (e : ProtError)
  | started
deriving Repr, DecidableEq

/-- guard/protect entry: evaluate duplicate suppression and rate limiting in
order, before the operation starts. A rejected call leaves the state
unchanged and the operation never runs; an admitted call records the
in-flight marker (expiring after the configured duration) and counts the
call against the window, then the operation starts. -/
def guardStart (s : ProtState) (actor action : String) (opts : GuardOptions)
    (now : Nat) : GuardOutcome × ProtState :=
  if opts.checkDuplicate && isInflight s actor action opts.data now then
    (.rejected .requestDuplicate, s)
  else if opts.checkRateLimit && decide (limitFor s action opts.customLimit ≤
      (recentHits s actor action now).length) then
    (.rejected (.rateLimited
      (retryAfterSec (minTime ((recentHits s actor action now).map
        HitEntry.time)) s.windowMs now)), s)
  else
    (.started,
     { s with
       inflight := ⟨actor, action, opts.data, now + opts.duration⟩ :: s.inflight
       hits := ⟨actor, action, now⟩ :: s.hits })

/-- Release the in-flight marker of a key when its operation settles
(success or failure alike). -/
def guardSettle (s : ProtState) (actor action data : String) : ProtState :=
  { s with
    inflight := s.inflight.filter (fun e =>
      !(e.actor == actor && e.action == action && e.data == data)) }

/-- protect with an optional options argument: an omitted argument means the
documented defaults. -/
def protect (s : ProtState) (actor action : String)
    (opts? : Option GuardOptions) (now : Nat) : GuardOutcome × ProtState :=
  guardStart s actor action (opts?.getD GuardOptions.default) now

/-- A protected call as seen by the module calling it: a protection rejection
propagates to the caller as a distinguishable error. -/
def protectRun (s : ProtState) (actor action : String) (opts : GuardOptions)
    (now : Nat) : Except ProtError ProtState :=
  match guardStart s actor action opts now with
  | (.rejected e, _) => .error e
  | (.started, s1) => .ok s1

/-- One guarded call that settles immediately (start, run, settle): the shape
of the rate-limit scenarios of the spec. Returns the outcome of the check
and the state after the operation settled. -/
def callAndSettle (s : ProtState) (actor action : String) (opts : GuardOptions)
    (now : Nat) : GuardOutcome × ProtState :=
  let r := guardStart s actor action opts now
  (r.1, guardSettle r.2 actor action opts.data)

/-- A sequence of guarded calls at the given times, each settling before the
next starts: returns the outcomes in order and the final state. -/
def runCalls (s : ProtState) (actor action : String) (opts : GuardOptions) :
    List Nat → List GuardOutcome × ProtState
  | [] => ([], s)
  | t :: ts =>
      let r := callAndSettle s actor action opts t
      let rest := runCalls r.2 actor action opts ts
      (r.1 :: rest.1, rest.2)

/-- A fresh protection state configured with a rate limit of 3 calls per
10-second (10000 ms) sliding window. -/
def threePerTenState : ProtState :=
  { inflight := []
    hits := []
    limits := []
    defaultLimit := 3
    windowMs := 10000 }

/-! ## Discovery Scanner

Modelled from the spec: the scanner walks the addon tree, parses each
manifest, and validates it. A manifest missing both addonfile and
commandfile is rejected: the module is excluded from the tree and a warning
naming the module's path is logged, and the scan continues with the rest. A
module with enabled set to false is skipped silently. -/

/-- A parsed addon.info manifest together with the directory it was found in. -/
structure AddonInfo where
  author : Option String
  displayName : Option String
  version : Option String
  addonfile : Option String
  commandfile : Option String
  intentconfig : Option String
  extensions : Option String
  priority : Int
  enabled : Bool
  absolutePath : String

/-- A manifest is valid when it declares at least one of addonfile and
commandfile. -/
def hasRequiredFile (m : AddonInfo) : Bool :=
  m.addonfile.isSome || m.commandfile.isSome

/-- The warning logged for a module that declares neither file, naming the
module's path. -/
def skipWarn (path : String) : String :=
  "Addon at " ++ path ++ " has no addonfile or commandfile, skipping"

/-- Validate a sequence of discovered manifests: disabled modules are skipped
silently, invalid modules are excluded with a warning naming their path, and
the scan always continues to the end, returning every remaining valid
module. -/
def scanValidate : List AddonInfo → List AddonInfo × List String
  | [] => ([], [])
  | m :: ms =>
      let r := scanValidate ms
      if !m.enabled then r
      else if hasRequiredFile m then (m :: r.1, r.2)
      else (r.1, skipWarn m.absolutePath :: r.2)

/-! ## Priority ordering and the module tree

Modelled from the spec: discovered modules form a forest; siblings are
grouped by priority, groups are processed strictly from highest to lowest
priority value, members of one group keep their discovery order, and a child
loads strictly after its parent. -/

/-- The descriptor data of one module as the orchestrator orders it. -/
structure Desc where
  name : String
  priority : Int
deriving Repr, DecidableEq

/-- The module forest: each module owns the sub-modules discovered under its
extensions path. -/
inductive MTree where
  | node (d : Desc) (children : List MTree)

/-- The descriptor at the root of a tree. -/
def MTree.root : MTree → Desc
  | .node d _ => d

/-- Priority of the root module of a tree. -/
def rootPriority (t : MTree) : Int :=
  t.root.priority

/-- Insert a priority value into a strictly-descending list of distinct
priority values (dropping it when already present). -/
def insertPri (x : Int) : List Int → List Int
  | [] => [x]
  | y :: ys =>
      if x = y then y :: ys
      else if y < x then x :: y :: ys
      else y :: insertPri x ys

/-- The distinct priority values of a list, strictly descending. -/
def prioritySeq (ps : List Int) : List Int :=
  ps.foldr insertPri []

/-- Order the roots of a forest: concatenate, priority group by priority
group from highest to lowest, the members of each group in discovery
order. -/
def orderRoots (ts : List MTree) : List MTree :=
  concatAll ((prioritySeq (ts.map rootPriority)).map
    (fun p => ts.filter (fun t => decide (rootPriority t = p))))

/-- Membership in concatAll comes from membership in one of the lists. -/
theorem mem_concatAll {x : α} {ls : List (List α)} :
    x ∈ concatAll ls ↔ ∃ l ∈ ls, x ∈ l := by
  induction ls with
  | nil => simp [concatAll]
  | cons l ls ih => simp [concatAll, ih]

/-- Membership is preserved by insertPri. -/
theorem mem_insertPri {x p : Int} {l : List Int} :
    x ∈ insertPri p l ↔ x = p ∨ x ∈ l := by
  induction l with
  | nil => simp [insertPri]
  | cons y ys ih =>
      by_cases h1 : p = y
      · subst h1
        by_cases hx : x = p <;> simp [insertPri, hx]
      · by_cases h2 : y < p <;> simp [insertPri, h1, h2, ih] <;> tauto

/-- Membership in prioritySeq is membership in the underlying list. -/
theorem mem_prioritySeq {x : Int} {ps : List Int} :
    x ∈ prioritySeq ps ↔ x ∈ ps := by
  induction ps with
  | nil => simp [prioritySeq]
  | cons p ps ih => simp [prioritySeq, mem_insertPri] at *; rw [ih]

/-- A member of the ordered roots is a member of the forest. -/
theorem mem_of_mem_orderRoots {t : MTree} {ts : List MTree}
    (h : t ∈ orderRoots ts) : t ∈ ts := by
  rcases mem_concatAll.1 h with ⟨l, hl, htl⟩
  rcases List.mem_map.1 hl with ⟨p, _, rfl⟩
  exact List.mem_of_mem_filter htl

/-- Flatten one tree into load order: the parent first, then its children,
priority group by priority group. -/
def loadTree : MTree → List Desc
  | .node d cs =>
      d :: concatAll ((orderRoots cs).attach.map (fun x => loadTree x.1))
termination_by t => sizeOf t
decreasing_by
  simp_wf
  have h1 := mem_of_mem_orderRoots x.2
  have h2 := List.sizeOf_lt_of_mem h1
  try simp only [MTree.node.sizeOf_spec]
  omega

/-- Flatten a forest into load order: the ordered roots, each followed by its
subtree. -/
def loadForest (ts : List MTree) : List Desc :=
  concatAll ((orderRoots ts).map loadTree)

/-! ## Capability (intent) aggregation

Modelled from the spec: before the host connection opens, the aggregator
collects every module's declared capability identifiers, merges them into
one set with duplicates removed, and records which module first requested
each capability. After the set is frozen, a late request is only logged as a
warning naming the requesting module and the capability; the set never
changes and nothing is raised. -/

/-- All capability identifiers requested by a list of modules, in collection
order with duplicates retained. -/
def allCaps (mods : List (String × List String)) : List String :=
  concatAll (mods.map Prod.snd)

/-- The aggregated capability set: the requested identifiers with duplicates
removed. -/
def aggregateCaps (mods : List (String × List String)) : List String :=
  (allCaps mods).dedup

/-- Diagnostics: the module that first requested a capability, if any. -/
def firstRequester (mods : List (String × List String)) (cap : String) :
    Option String :=
  ((concatAll (mods.map (fun m => m.2.map (fun c => (c, m.1))))).find?
    (fun p => p.1 == cap)).map Prod.snd

/-- The intent registry: the aggregated set, whether it is frozen (the host
connection was created), and the warning log. -/
structure IntentRegistry where
  intents : List String
  frozen : Bool
  warnings : List String

/-- The warning logged for a capability requested after the connection
opened: names the requesting module and the capability. -/
def lateIntentWarn (source intent : String) : String :=
  "Intent " ++ intent ++ " requested by " ++ source ++
    " after bot initialization. This intent will not be available."

/-- requestIntent: before the freeze the capability joins the set (without
duplicates); after the freeze the set is left unchanged and the event is
only logged as a warning naming the requesting module and the capability —
no exception, no abort. -/
def requestIntent (r : IntentRegistry) (intent source : String) :
    IntentRegistry :=
  if r.frozen then
    { r with warnings := lateIntentWarn source intent :: r.warnings }
  else if intent ∈ r.intents then r
  else { r with intents := intent :: r.intents }

/-! ## Load Orchestrator (module loading within one priority group)

Modelled from the spec: each module of a group is imported and wired up; an
exception raised during one module's import or hook invocation is caught,
logged with the module's name as context, and never stops the orchestrator
or the module's siblings. -/

/-- What loading one module does: succeeds, or raises with a message. -/
inductive LoadRes where
  | ok
  | errored (msg : String)

/-- Log line for a module whose import or hook raised, carrying the module
name as context. -/
def moduleErrLog (name msg : String) : String :=
  "Error loading addon " ++ name ++ ": " ++ msg

/-- Load every module of a priority group in order: a failing module is
marked failed and logged, and loading proceeds with the rest of the group.
Returns the per-module results and the error log. -/
def loadModules (env : String → LoadRes) :
    List String → List (String × Bool) × List String
  | [] => ([], [])
  | m :: ms =>
      let r := loadModules env ms
      match env m with
      | .ok => ((m, true) :: r.1, r.2)
      | .errored msg => ((m, false) :: r.1, moduleErrLog m msg :: r.2)

/-! ## Helper lemmas -/

/-- Every module the validation returns declares a required file. -/
theorem hasRequiredFile_of_mem_scanValidate {ms : List AddonInfo} {x : AddonInfo}
    (h : x ∈ (scanValidate ms).1) : hasRequiredFile x = true := by
  induction ms with
  | nil => simp [scanValidate] at h
  | cons m ms ih =>
      by_cases he : m.enabled
      · by_cases hf : hasRequiredFile m
        · simp [scanValidate, he, hf] at h
          rcases h with h | h
          · subst h; exact hf
          · exact ih h
        · simp [scanValidate, he, hf] at h
          exact ih h
      · simp [scanValidate, he] at h
        exact ih h

/-- An enabled module that declares a required file survives validation. -/
theorem mem_scanValidate_of_valid {ms : List AddonInfo} {x : AddonInfo}
    (hx : x ∈ ms) (he : x.enabled = true) (hf : hasRequiredFile x = true) :
    x ∈ (scanValidate ms).1 := by
  induction ms with
  | nil => simp at hx
  | cons m ms ih =>
      rcases List.mem_cons.1 hx with rfl | hx2
      · simp [scanValidate, he, hf]
      · by_cases he2 : m.enabled <;> by_cases hf2 : hasRequiredFile m <;>
          simp [scanValidate, he2, hf2, ih hx2]

/-- An enabled module missing both files gets its warning logged. -/
theorem skipWarn_of_invalid {ms : List AddonInfo} {x : AddonInfo}
    (hx : x ∈ ms) (he : x.enabled = true) (hf : hasRequiredFile x = false) :
    skipWarn x.absolutePath ∈ (scanValidate ms).2 := by
  induction ms with
  | nil => simp at hx
  | cons m ms ih =>
      rcases List.mem_cons.1 hx with rfl | hx2
      · simp [scanValidate, he, hf]
      · by_cases he2 : m.enabled <;> by_cases hf2 : hasRequiredFile m <;>
          simp [scanValidate, he2, hf2, ih hx2]

/-- Membership in the aggregated capability list is membership in some
module's request list. -/
theorem mem_allCaps {mods : List (String × List String)} {x : String} :
    x ∈ allCaps mods ↔ ∃ m ∈ mods, x ∈ m.2 := by
  unfold allCaps
  rw [mem_concatAll]
  constructor
  · rintro ⟨l, hl, hxl⟩
    rcases List.mem_map.1 hl with ⟨m, hm, rfl⟩
    exact ⟨m, hm, hxl⟩
  · rintro ⟨m, hm, hxm⟩
    exact ⟨m.2, List.mem_map_of_mem Prod.snd hm, hxm⟩

/-- Looking up a key in the empty subscription table. -/
@[simp] theorem getSubs_nil (key : String) : getSubs [] key = [] := rfl

/-- Looking up a key stored at the head of the subscription table. -/
@[simp] theorem getSubs_cons_self (key : String) (subs : List BusSub)
    (rest : List (String × List BusSub)) :
    getSubs ((key, subs) :: rest) key = subs := by
  unfold getSubs
  rw [List.find?_cons_of_pos]
  simp

/-- Storing a key in the empty subscription table. -/
@[simp] theorem setSubs_nil (key : String) (subs : List BusSub) :
    setSubs [] key subs = [(key, subs)] := rfl

/-- Overwriting the key stored at the head of the subscription table. -/
@[simp] theorem setSubs_cons_self (key : String) (l subs : List BusSub)
    (rest : List (String × List BusSub)) :
    setSubs ((key, l) :: rest) key subs = (key, subs) :: rest := by
  simp [setSubs]

/-- Membership after a priority insertion. -/
theorem mem_insertByPriority {x e : InteractionRegistration}
    {l : List InteractionRegistration} :
    x ∈ insertByPriority e l ↔ x = e ∨ x ∈ l := by
  induction l with
  | nil => simp [insertByPriority]
  | cons y ys ih =>
      by_cases hc : y.priority ≤ e.priority <;>
        simp [insertByPriority, hc, ih] <;> tauto

/-- The stable sort keeps exactly the registered entries. -/
theorem mem_sortByPriority {x : InteractionRegistration}
    {l : List InteractionRegistration} :
    x ∈ sortByPriority l ↔ x ∈ l := by
  induction l with
  | nil => simp [sortByPriority]
  | cons y ys ih =>
      show x ∈ insertByPriority y (sortByPriority ys) ↔ _
      rw [mem_insertByPriority]
      simp [ih]

/-- Priority insertion preserves the descending-priority invariant. -/
theorem pairwise_insertByPriority {e : InteractionRegistration}
    {l : List InteractionRegistration}
    (h : l.Pairwise (fun a b => b.priority ≤ a.priority)) :
    (insertByPriority e l).Pairwise (fun a b => b.priority ≤ a.priority) := by
  induction l with
  | nil => simp [insertByPriority]
  | cons x xs ih =>
      rcases List.pairwise_cons.1 h with ⟨hx, hxs⟩
      by_cases hc : x.priority ≤ e.priority
      · simp only [insertByPriority, if_pos hc]
        rw [List.pairwise_cons]
        refine ⟨?_, h⟩
        intro y hy
        rcases List.mem_cons.1 hy with rfl | hy2
        · exact hc
        · exact le_trans (hx y hy2) hc
      · simp only [insertByPriority, if_neg hc]
        rw [List.pairwise_cons]
        refine ⟨?_, ih hxs⟩
        intro y hy
        rcases mem_insertByPriority.1 hy with rfl | hy2
        · exact le_of_lt (lt_of_not_le hc)
        · exact hx y hy2

/-- The sorted registration table is in descending priority order. -/
theorem sortByPriority_sorted (l : List InteractionRegistration) :
    (sortByPriority l).Pairwise (fun a b => b.priority ≤ a.priority) := by
  induction l with
  | nil => simp [sortByPriority]
  | cons x xs ih => exact pairwise_insertByPriority ih

/-- Priority insertion of an entry registered before everything in the list
preserves the strict order: descending priority with priority ties broken by
registration order. -/
theorem stable_insertByPriority {e : InteractionRegistration}
    {l : List InteractionRegistration}
    (hs : l.Pairwise (fun a b =>
      b.priority < a.priority ∨ (b.priority = a.priority ∧ a.regIdx < b.regIdx)))
    (hidx : ∀ y ∈ l, e.regIdx < y.regIdx) :
    (insertByPriority e l).Pairwise (fun a b =>
      b.priority < a.priority ∨
        (b.priority = a.priority ∧ a.regIdx < b.regIdx)) := by
  induction l with
  | nil => simp [insertByPriority]
  | cons x xs ih =>
      rcases List.pairwise_cons.1 hs with ⟨hx, hxs⟩
      by_cases hc : x.priority ≤ e.priority
      · simp only [insertByPriority, if_pos hc]
        rw [List.pairwise_cons]
        refine ⟨?_, hs⟩
        intro y hy
        have hyle : y.priority ≤ e.priority := by
          rcases List.mem_cons.1 hy with rfl | hy2
          · exact hc
          · rcases hx y hy2 with h1 | h1
            · exact le_trans (le_of_lt h1) hc
            · exact le_trans (le_of_eq h1.1) hc
        rcases lt_or_eq_of_le hyle with h1 | h1
        · exact Or.inl h1
        · exact Or.inr ⟨h1, hidx y hy⟩
      · simp only [insertByPriority, if_neg hc]
        rw [List.pairwise_cons]
        refine ⟨?_, ih hxs (fun y hy => hidx y (List.mem_cons_of_mem x hy))⟩
        intro y hy
        rcases mem_insertByPriority.1 hy with rfl | hy2
        · exact Or.inl (lt_of_not_le hc)
        · exact hx y hy2

/-- A table whose entries appear in registration order sorts into descending
priority order with ties broken by registration order. -/
theorem sortByPriority_stable (l : List InteractionRegistration)
    (h : l.Pairwise (fun a b => a.regIdx < b.regIdx)) :
    (sortByPriority l).Pairwise (fun a b =>
      b.priority < a.priority ∨
        (b.priority = a.priority ∧ a.regIdx < b.regIdx)) := by
  induction l with
  | nil => simp [sortByPriority]
  | cons x xs ih =>
      rcases List.pairwise_cons.1 h with ⟨hx, hxs⟩
      exact stable_insertByPriority (ih hxs)
        (fun y hy => hx y (mem_sortByPriority.1 hy))

/-- Dispatch invokes every entry up to and including the first handler that
returns true, then stops. -/
theorem dispatchList_stops {env : Nat → HandlerRes}
    (l1 : List InteractionRegistration) (e : InteractionRegistration)
    (l2 : List InteractionRegistration)
    (h1 : ∀ x ∈ l1, env x.hid ≠ .retTrue) (he : env e.hid = .retTrue) :
    (dispatchList env (l1 ++ e :: l2)).1 =
      l1.map InteractionRegistration.hid ++ [e.hid] := by
  induction l1 with
  | nil => simp [dispatchList, he]
  | cons x xs ih =>
      have hx := h1 x (List.mem_cons_self x xs)
      cases hxe : env x.hid
      · exact absurd hxe hx
      · simp [dispatchList, hxe]
        exact ih (fun y hy => h1 y (List.mem_cons_of_mem x hy))
      · simp [dispatchList, hxe]
        exact ih (fun y hy => h1 y (List.mem_cons_of_mem x hy))

/-- When no handler returns true, dispatch invokes every entry. -/
theorem dispatchList_all {env : Nat → HandlerRes}
    {es : List InteractionRegistration}
    (h : ∀ e ∈ es, env e.hid ≠ .retTrue) :
    (dispatchList env es).1 = es.map InteractionRegistration.hid := by
  induction es with
  | nil => rfl
  | cons e es ih =>
      cases henv : env e.hid
      · exact absurd henv (h e (List.mem_cons_self e es))
      · simp [dispatchList, henv]
        exact ih (fun x hx => h x (List.mem_cons_of_mem e hx))
      · simp [dispatchList, henv]
        exact ih (fun x hx => h x (List.mem_cons_of_mem e hx))

/-- A raised handler is always caught and logged with its source module:
whenever the dispatch reaches an entry whose handler raises (no earlier
entry returned true), that entry's source log line appears in the error
log of the dispatch. -/
theorem dispatchList_logs_raised {env : Nat → HandlerRes}
    (l1 : List InteractionRegistration) (e : InteractionRegistration)
    (l2 : List InteractionRegistration)
    (h1 : ∀ x ∈ l1, env x.hid ≠ .retTrue) (he : env e.hid = .raised) :
    handlerErrLog e.source ∈ (dispatchList env (l1 ++ e :: l2)).2 := by
  induction l1 with
  | nil => simp [dispatchList, he]
  | cons x xs ih =>
      have hx := h1 x (List.mem_cons_self x xs)
      cases hxe : env x.hid
      · exact absurd hxe hx
      · simp [dispatchList, hxe]
        exact ih (fun y hy => h1 y (List.mem_cons_of_mem x hy))
      · simp [dispatchList, hxe]
        exact Or.inr (ih (fun y hy => h1 y (List.mem_cons_of_mem x hy)))

/-- When no handler short-circuits the dispatch, the error log lists exactly
the raising handlers, in iteration order, each logged with its source
module. -/
theorem dispatchList_logs_all {env : Nat → HandlerRes}
    {es : List InteractionRegistration}
    (h : ∀ e ∈ es, env e.hid ≠ .retTrue) :
    (dispatchList env es).2 =
      (es.filter (fun e =>
        match env e.hid with
        | .raised => true
        | _ => false)).map (fun e => handlerErrLog e.source) := by
  induction es with
  | nil => rfl
  | cons e es ih =>
      cases henv : env e.hid
      · exact absurd henv (h e (List.mem_cons_self e es))
      · simp [dispatchList, henv, List.filter_cons]
        exact ih (fun x hx => h x (List.mem_cons_of_mem e hx))
      · simp [dispatchList, henv, List.filter_cons]
        exact ih (fun x hx => h x (List.mem_cons_of_mem e hx))

/-- Inserting into a strictly-descending list of priorities keeps it
strictly descending. -/
theorem pairwise_insertPri {x : Int} {l : List Int}
    (h : l.Pairwise (fun a b => b < a)) :
    (insertPri x l).Pairwise (fun a b => b < a) := by
  induction l with
  | nil => simp [insertPri]
  | cons y ys ih =>
      rcases List.pairwise_cons.1 h with ⟨hy, hys⟩
      by_cases h1 : x = y
      · simpa [insertPri, h1] using h
      · by_cases h2 : y < x
        · simp only [insertPri, if_neg h1, if_pos h2]
          rw [List.pairwise_cons]
          refine ⟨?_, h⟩
          intro z hz
          rcases List.mem_cons.1 hz with rfl | hz2
          · exact h2
          · exact lt_trans (hy z hz2) h2
        · simp only [insertPri, if_neg h1, if_neg h2]
          rw [List.pairwise_cons]
          refine ⟨?_, ih hys⟩
          intro z hz
          rcases mem_insertPri.1 hz with rfl | hz2
          · omega
          · exact hy z hz2

/-- The priority-group sequence is strictly descending. -/
theorem prioritySeq_sorted (ps : List Int) :
    (prioritySeq ps).Pairwise (fun a b => b < a) := by
  induction ps with
  | nil => simp [prioritySeq]
  | cons p ps ih => exact pairwise_insertPri ih

/-- The ordered roots are exactly the trees of the forest. -/
theorem mem_orderRoots {t : MTree} {ts : List MTree} :
    t ∈ orderRoots ts ↔ t ∈ ts := by
  constructor
  · exact mem_of_mem_orderRoots
  · intro h
    apply mem_concatAll.2
    refine ⟨ts.filter (fun u => decide (rootPriority u = rootPriority t)),
      List.mem_map_of_mem _ (mem_prioritySeq.2
        (List.mem_map_of_mem rootPriority h)), ?_⟩
    exact List.mem_filter.2 ⟨h, by simp⟩

/-- Unfolding the load order of one tree: the parent descriptor first, then
the whole forest of its children. -/
theorem loadTree_eq (d : Desc) (cs : List MTree) :
    loadTree (MTree.node d cs) = d :: loadForest cs := by
  rw [loadTree, loadForest]
  congr 1
  congr 1
  exact List.attach_map_val (orderRoots cs) loadTree

/-! ## Claim theorems -/

/-- C6: for every scanned module tree, a module whose manifest declares
neither an addonfile (mainFile) nor a commandfile is excluded from the
resulting tree, a warning naming the module's path is logged, and the scan
never aborts: every other enabled valid module is still returned. -/
theorem scanValidate_excludes_invalid (ms : List AddonInfo) (m : AddonInfo)
    (hm : m ∈ ms) (hen : m.enabled = true) (hbad : hasRequiredFile m = false) :
    m ∉ (scanValidate ms).1 ∧
    skipWarn m.absolutePath ∈ (scanValidate ms).2 ∧
    ∀ v ∈ ms, v.enabled = true → hasRequiredFile v = true →
      v ∈ (scanValidate ms).1 := by
  refine ⟨?_, skipWarn_of_invalid hm hen hbad, ?_⟩
  · intro hcontra
    have := hasRequiredFile_of_mem_scanValidate hcontra
    rw [hbad] at this
    exact Bool.false_ne_true this
  · intro v hv hve hvf
    exact mem_scanValidate_of_valid hv hve hvf

/-- C6 witness: a broken manifest (no addonfile, no commandfile) next to a
valid one: the broken one is excluded and warned about, the valid one is
kept. -/
theorem scanValidate_excludes_invalid_witness :
    let broken : AddonInfo :=
      ⟨none, none, none, none, none, none, none, 0, true, "/addons/Broken"⟩
    let good : AddonInfo :=
      ⟨none, none, none, some "./main.js", none, none, none, 0, true,
       "/addons/Good"⟩
    broken ∉ (scanValidate [broken, good]).1 ∧
    skipWarn "/addons/Broken" ∈ (scanValidate [broken, good]).2 := by
  intro broken good
  have h := scanValidate_excludes_invalid [broken, good] broken
    (by simp) rfl rfl
  exact ⟨h.1, h.2.1⟩

/-- C7: priority groups are processed strictly from highest to lowest
priority value; within one group the members keep their discovery order (the
group is the filter of the discovery list, a deterministic function of the
input); a parent is placed before all of its children; and every tree of the
forest contributes its whole load order to the forest's load order. -/
theorem priority_group_ordering (ts : List MTree) (d : Desc)
    (cs : List MTree) :
    (prioritySeq (ts.map rootPriority)).Pairwise (fun a b => b < a) ∧
    (∀ p : Int,
      List.Sublist (ts.filter (fun t => decide (rootPriority t = p))) ts) ∧
    loadTree (MTree.node d cs) = d :: loadForest cs ∧
    (∀ t ∈ ts, ∀ x ∈ loadTree t, x ∈ loadForest ts) ∧
    (∀ t ∈ ts, t.root ∈ loadForest ts) := by
  have hmem : ∀ t ∈ ts, ∀ x ∈ loadTree t, x ∈ loadForest ts := by
    intro t ht x hx
    exact mem_concatAll.2
      ⟨loadTree t, List.mem_map_of_mem loadTree (mem_orderRoots.2 ht), hx⟩
  refine ⟨prioritySeq_sorted _, fun p => List.filter_sublist ts,
    loadTree_eq d cs, hmem, ?_⟩
  intro t ht
  apply hmem t ht
  rcases t with ⟨d0, cs0⟩
  rw [loadTree_eq]
  exact List.mem_cons_self _ _

/-- C7 witness: a concrete forest with priorities 10, 0 and 10 and one child:
the group sequence is strictly descending, and the parent of the child
appears before the child in the flattened load order. -/
theorem priority_group_ordering_witness :
    (prioritySeq
        ([MTree.node ⟨"Tickets", 10⟩ [MTree.node ⟨"Logger", 0⟩ []],
          MTree.node ⟨"Welcome", 0⟩ []].map rootPriority)).Pairwise
      (fun a b => b < a) ∧
    loadTree (MTree.node ⟨"Tickets", 10⟩ [MTree.node ⟨"Logger", 0⟩ []]) =
      ⟨"Tickets", 10⟩ ::
        loadForest [MTree.node ⟨"Logger", 0⟩ []] :=
  ⟨(priority_group_ordering
      [MTree.node ⟨"Tickets", 10⟩ [MTree.node ⟨"Logger", 0⟩ []],
       MTree.node ⟨"Welcome", 0⟩ []] ⟨"Tickets", 10⟩
      [MTree.node ⟨"Logger", 0⟩ []]).1,
   (priority_group_ordering [] ⟨"Tickets", 10⟩
      [MTree.node ⟨"Logger", 0⟩ []]).2.2.1⟩

/-- C8: capability aggregation merges the requests of all modules into one
duplicate-free set whose size is the number of distinct requested
identifiers, and the resulting set does not depend on the order in which the
requests were collected. -/
theorem aggregateCaps_dedup_and_commutative
    (mods mods2 : List (String × List String))
    (hperm : List.Perm mods mods2) :
    (aggregateCaps mods).Nodup ∧
    (aggregateCaps mods).toFinset = (allCaps mods).toFinset ∧
    (aggregateCaps mods).length = (allCaps mods).toFinset.card ∧
    (aggregateCaps mods).toFinset = (aggregateCaps mods2).toFinset := by
  have hnodup : (aggregateCaps mods).Nodup := List.nodup_dedup _
  have hset : ∀ l : List (String × List String),
      (aggregateCaps l).toFinset = (allCaps l).toFinset := by
    intro l
    ext x
    simp [aggregateCaps, List.mem_toFinset, List.mem_dedup]
  refine ⟨hnodup, hset mods, ?_, ?_⟩
  · rw [← hset mods]
    exact (List.toFinset_card_of_nodup hnodup).symm
  · rw [hset mods, hset mods2]
    ext x
    simp only [List.mem_toFinset, mem_allCaps]
    constructor
    · rintro ⟨m, hm, hxm⟩
      exact ⟨m, hperm.mem_iff.1 hm, hxm⟩
    · rintro ⟨m, hm, hxm⟩
      exact ⟨m, hperm.mem_iff.2 hm, hxm⟩

/-- C8 witness: two modules with overlapping requests, collected in both
orders: the merged set is duplicate-free and identical. -/
theorem aggregateCaps_dedup_and_commutative_witness :
    (aggregateCaps [("A", ["guilds", "members"]), ("B", ["members"])]).Nodup ∧
    (aggregateCaps [("A", ["guilds", "members"]), ("B", ["members"])]).toFinset =
      (aggregateCaps [("B", ["members"]), ("A", ["guilds", "members"])]).toFinset := by
  have h := aggregateCaps_dedup_and_commutative
    [("A", ["guilds", "members"]), ("B", ["members"])]
    [("B", ["members"]), ("A", ["guilds", "members"])]
    (List.Perm.swap _ _ [])
  exact ⟨h.1, h.2.2.2⟩

/-- C9: a capability requested after the aggregated set is frozen is never
retroactively added: the set is unchanged, the registry stays frozen, and
the only effect is a logged warning naming the requesting module and the
capability. -/
theorem requestIntent_after_freeze (r : IntentRegistry) (intent source : String)
    (h : r.frozen = true) :
    (requestIntent r intent source).intents = r.intents ∧
    (requestIntent r intent source).frozen = true ∧
    (requestIntent r intent source).warnings =
      lateIntentWarn source intent :: r.warnings ∧
    lateIntentWarn source intent ∈ (requestIntent r intent source).warnings := by
  simp [requestIntent, h]

/-- C9 witness: a late request against a concrete frozen registry leaves the
set untouched. -/
theorem requestIntent_after_freeze_witness :
    (requestIntent ⟨["guilds"], true, []⟩ "members" "MyAddon").intents =
      ["guilds"] :=
  (requestIntent_after_freeze ⟨["guilds"], true, []⟩ "members" "MyAddon" rfl).1

/-- C2: dispatch iterates exactly the registered entries whose pattern
matches the identifier under its strategy (exact byte-equality, starts-with,
regex), in descending priority order with ties broken by registration order;
the order never looks at the matcher, so priority is evaluated before match
specificity. A handler returning true stops the iteration, any other return
continues, and when no entry matches dispatch is a no-op rather than an
error. Concretely, against a priority-5 starts-with entry and a priority-1
exact entry both matching, the starts-with entry runs first and, returning
true, the exact entry is never invoked. -/
theorem dispatch_priority_resolution (reg : List InteractionRegistration)
    (id str : String) (env : Nat → HandlerRes) (p : String) (r : Regex)
    (hreg : reg.Pairwise (fun a b => a.regIdx < b.regIdx)) :
    ((Matcher.mExact p).accepts str = (p == str) ∧
     (Matcher.mStarts p).accepts str = p.data.isPrefixOf str.data ∧
     (Matcher.mRegex r).accepts str = r.search str.data) ∧
    (∀ e, e ∈ matchingEntries reg id ↔
      e ∈ reg ∧ e.matcher.accepts id = true) ∧
    (matchingEntries reg id).Pairwise (fun a b =>
      b.priority < a.priority ∨
        (b.priority = a.priority ∧ a.regIdx < b.regIdx)) ∧
    (matchingEntries reg id = [] → dispatch reg id env = ([], [])) ∧
    (∀ l1 e l2, matchingEntries reg id = l1 ++ e :: l2 →
      (∀ x ∈ l1, env x.hid ≠ .retTrue) → env e.hid = .retTrue →
      (dispatch reg id env).1 =
        l1.map InteractionRegistration.hid ++ [e.hid]) ∧
    ((∀ e ∈ matchingEntries reg id, env e.hid ≠ .retTrue) →
      (dispatch reg id env).1 =
        (matchingEntries reg id).map InteractionRegistration.hid) ∧
    (matchingEntries
        [⟨.mStarts "ticket-", 5, 50, "A", 0⟩,
         ⟨.mExact "ticket-123", 1, 51, "B", 1⟩] "ticket-123" =
      [⟨.mStarts "ticket-", 5, 50, "A", 0⟩,
       ⟨.mExact "ticket-123", 1, 51, "B", 1⟩] ∧
     (dispatch
        [⟨.mStarts "ticket-", 5, 50, "A", 0⟩,
         ⟨.mExact "ticket-123", 1, 51, "B", 1⟩] "ticket-123"
        (fun n => if n = 50 then .retTrue else .retOther)).1 = [50]) := by
  refine ⟨⟨rfl, rfl, rfl⟩, ?_, ?_, ?_, ?_, ?_, by decide, by decide⟩
  · intro e
    unfold matchingEntries
    rw [List.mem_filter, mem_sortByPriority]
  · exact (sortByPriority_stable reg hreg).filter _
  · intro hnone
    unfold dispatch
    rw [hnone]
    rfl
  · intro l1 e l2 heq h1 he
    unfold dispatch
    rw [heq]
    exact dispatchList_stops l1 e l2 h1 he
  · intro h
    exact dispatchList_all h

/-- C2 witness: with the two concrete registrations of the spec example,
both entries match but resolution is by priority: the priority-5 starts-with
handler runs and its true return stops the dispatch before the priority-1
exact handler. -/
theorem dispatch_priority_resolution_witness :
    (dispatch
        [⟨.mStarts "ticket-", 5, 50, "A", 0⟩,
         ⟨.mExact "ticket-123", 1, 51, "B", 1⟩] "ticket-123"
        (fun n => if n = 50 then .retTrue else .retOther)).1 = [50] :=
  (dispatch_priority_resolution
      [⟨.mStarts "ticket-", 5, 50, "A", 0⟩,
       ⟨.mExact "ticket-123", 1, 51, "B", 1⟩]
      "ticket-123" "x" (fun n => if n = 50 then .retTrue else .retOther)
      "x" Regex.eps (by decide)).2.2.2.2.2.2.2

/-- C4: emitEvent invokes every current subscriber in registration order and
returns true exactly when at least one subscriber was invoked; a once
subscription is removed immediately after its first invocation, even if that
invocation throws. With three subscribers registered via on, once, on, the
first emission invokes all three and a second emission invokes only the two
persistent ones; a key with zero subscribers reports false. -/
theorem emit_on_once_on (bus : AddonBus) (key : String) (a b c : Nat)
    (throws throws2 throws3 : Nat → Bool) :
    (emitEvent bus key throws3).invoked =
      (getSubs bus.listeners key).map BusSub.id ∧
    (emitEvent bus key throws3).handled = !(getSubs bus.listeners key).isEmpty ∧
    (emitEvent AddonBus.empty key throws3).handled = false ∧
    (emitEvent (onEvent (onceEvent (onEvent AddonBus.empty key a) key b) key c)
        key throws).invoked = [a, b, c] ∧
    (emitEvent (onEvent (onceEvent (onEvent AddonBus.empty key a) key b) key c)
        key throws).handled = true ∧
    (emitEvent
        (emitEvent (onEvent (onceEvent (onEvent AddonBus.empty key a) key b)
            key c) key throws).bus
        key throws2).invoked = [a, c] := by
  refine ⟨rfl, rfl, rfl, ?_, ?_, ?_⟩ <;>
    simp [onEvent, onceEvent, emitEvent, AddonBus.empty]

/-- C5: a unit failure is isolated to that unit. A throwing listener never
changes which listeners of the same emission run and is logged with its key;
a raising interaction handler behaves for the rest of the dispatch exactly
like one that returned nothing (the remaining matching handlers still run)
and is caught and logged with its source module — when dispatch reaches a
raising entry its source log line is in the error log, and with no
short-circuit the log lists exactly the raising handlers; a failing module
is logged with its name and never aborts its siblings in the group; and
only Protection Layer rejections propagate to the caller as errors. -/
theorem failure_isolation :
    (∀ (bus : AddonBus) (key : String) (throws : Nat → Bool),
      (emitEvent bus key throws).invoked =
        (emitEvent bus key (fun _ => false)).invoked ∧
      (emitEvent bus key throws).logs =
        ((getSubs bus.listeners key).filter (fun s => throws s.id)).map
          (fun s => listenerErrLog key s.id)) ∧
    (∀ (env : Nat → HandlerRes) (es : List InteractionRegistration),
      (dispatchList env es).1 = (dispatchList (envNoRaise env) es).1) ∧
    (∀ (env : Nat → HandlerRes) (es : List InteractionRegistration),
      (∀ e ∈ es, env e.hid ≠ .retTrue) →
        (dispatchList env es).1 = es.map InteractionRegistration.hid) ∧
    (∀ (env : Nat → HandlerRes) (l1 : List InteractionRegistration)
       (e : InteractionRegistration) (l2 : List InteractionRegistration),
      (∀ x ∈ l1, env x.hid ≠ .retTrue) → env e.hid = .raised →
        handlerErrLog e.source ∈ (dispatchList env (l1 ++ e :: l2)).2) ∧
    (∀ (env : Nat → HandlerRes) (es : List InteractionRegistration),
      (∀ e ∈ es, env e.hid ≠ .retTrue) →
        (dispatchList env es).2 =
          (es.filter (fun e =>
            match env e.hid with
            | .raised => true
            | _ => false)).map (fun e => handlerErrLog e.source)) ∧
    (∀ (env : String → LoadRes) (ms : List String),
      (loadModules env ms).1.map Prod.fst = ms) ∧
    (∀ (env : String → LoadRes) (ms : List String) (m msg : String),
      m ∈ ms → env m = .errored msg →
        moduleErrLog m msg ∈ (loadModules env ms).2) ∧
    (∀ (s : ProtState) (actor action : String) (opts : GuardOptions)
       (now : Nat) (e : ProtError),
      (guardStart s actor action opts now).1 = .rejected e →
        protectRun s actor action opts now = .error e) := by
  refine ⟨?_, ?_, ?_, ?_, ?_, ?_, ?_, ?_⟩
  · intro bus key throws
    exact ⟨rfl, rfl⟩
  · intro env es
    induction es with
    | nil => rfl
    | cons e es ih =>
        cases henv : env e.hid <;>
          simp [dispatchList, envNoRaise, henv, ih]
  · intro env es h
    induction es with
    | nil => rfl
    | cons e es ih =>
        cases henv : env e.hid
        · exact absurd henv (h e (List.mem_cons_self e es))
        · simp [dispatchList, henv]
          exact ih (fun x hx => h x (List.mem_cons_of_mem e hx))
        · simp [dispatchList, henv]
          exact ih (fun x hx => h x (List.mem_cons_of_mem e hx))
  · intro env l1 e l2 h1 he
    exact dispatchList_logs_raised l1 e l2 h1 he
  · intro env es h
    exact dispatchList_logs_all h
  · intro env ms
    induction ms with
    | nil => rfl
    | cons m ms ih => cases henv : env m <;> simp [loadModules, henv, ih]
  · intro env ms m msg hm henv
    induction ms with
    | nil => simp at hm
    | cons m2 ms ih =>
        rcases List.mem_cons.1 hm with rfl | hm2
        · simp [loadModules, henv]
        · cases henv2 : env m2 <;> simp [loadModules, henv2, ih hm2]
  · intro s actor action opts now e h
    unfold protectRun
    split
    · next e2 s2 heq =>
        rw [heq] at h
        simp at h
        rw [h]
    · next s2 heq =>
        rw [heq] at h
        simp at h

/-- C5 witness: a group of two modules where the first one fails to load:
both modules are still processed and the failure is logged with the module
name; and a dispatch over one raising handler logs that handler's source
module. -/
theorem failure_isolation_witness :
    (loadModules (fun m => if m == "A" then .errored "boom" else .ok)
        ["A", "B"]).1.map Prod.fst = ["A", "B"] ∧
    moduleErrLog "A" "boom" ∈
      (loadModules (fun m => if m == "A" then .errored "boom" else .ok)
        ["A", "B"]).2 ∧
    handlerErrLog "ModA" ∈
      (dispatchList (fun _ => HandlerRes.raised)
        [⟨.mExact "x", 0, 7, "ModA", 0⟩]).2 :=
  ⟨failure_isolation.2.2.2.2.2.1 _ _,
   failure_isolation.2.2.2.2.2.2.1 _ _ "A" "boom" (by simp) (by rfl),
   failure_isolation.2.2.2.1 _ [] ⟨.mExact "x", 0, 7, "ModA", 0⟩ []
     (by simp) rfl⟩

/-- C1: while a first guarded call for a key is in flight, a second call for
the same key fails immediately with the duplicate-request error and leaves
the state untouched (so the wrapped operation runs exactly once, for the
first call only), and the in-flight marker is released when the first
operation settles or once the configured duration has elapsed, whichever
comes first. -/
theorem duplicate_request_suppression (s0 : ProtState) (actor action : String)
    (opts : GuardOptions) (now now2 : Nat)
    (hdup : opts.checkDuplicate = true)
    (hin : s0.inflight = []) (hh : s0.hits = [])
    (hlim : 0 < limitFor s0 action opts.customLimit)
    (h2 : now2 < now + opts.duration) :
    (guardStart s0 actor action opts now).1 = .started ∧
    (guardStart (guardStart s0 actor action opts now).2 actor action opts
        now2).1 = .rejected .requestDuplicate ∧
    (guardStart (guardStart s0 actor action opts now).2 actor action opts
        now2).2 = (guardStart s0 actor action opts now).2 ∧
    isInflight
        (guardSettle (guardStart s0 actor action opts now).2 actor action
          opts.data)
        actor action opts.data now2 = false ∧
    ∀ t, now + opts.duration ≤ t →
      isInflight (guardStart s0 actor action opts now).2 actor action
        opts.data t = false := by
  have hstart : guardStart s0 actor action opts now =
      (.started,
       { s0 with
         inflight := ⟨actor, action, opts.data, now + opts.duration⟩ ::
           s0.inflight
         hits := ⟨actor, action, now⟩ :: s0.hits }) := by
    have hnotin : isInflight s0 actor action opts.data now = false := by
      simp [isInflight, hin]
    have hrecent : recentHits s0 actor action now = [] := by
      simp [recentHits, hh]
    have hnle : ¬ (limitFor s0 action opts.customLimit ≤
        (recentHits s0 actor action now).length) := by
      rw [hrecent]
      simp only [List.length_nil]
      omega
    simp [guardStart, hnotin, hnle]
  refine ⟨by rw [hstart], ?_, ?_, ?_, ?_⟩
  · rw [hstart]
    simp [guardStart, isInflight, hdup, h2]
  · rw [hstart]
    simp [guardStart, isInflight, hdup, h2]
  · rw [hstart]
    simp [guardSettle, isInflight, hin]
  · intro t ht
    rw [hstart]
    simp [isInflight, hin, Nat.not_lt.2 ht]

/-- C1 witness: concrete instance — the second call at time 1 for the same
user and action is rejected as a duplicate while the first is in flight. -/
theorem duplicate_request_suppression_witness :
    (guardStart ⟨[], [], [], 3, 10000⟩ "user1" "createTicket"
        GuardOptions.default 0).1 = .started ∧
    (guardStart
        (guardStart ⟨[], [], [], 3, 10000⟩ "user1" "createTicket"
          GuardOptions.default 0).2
        "user1" "createTicket" GuardOptions.default 1).1 =
      .rejected .requestDuplicate := by
  have h := duplicate_request_suppression ⟨[], [], [], 3, 10000⟩ "user1"
    "createTicket" GuardOptions.default 0 1 rfl rfl rfl (by decide) (by decide)
  exact ⟨h.1, h.2.1⟩

/-- C3: with a limit of 3 per 10-second sliding window, four guarded calls
inside the window (each settling before the next) succeed three times and
fail on the fourth with a rate-limited error carrying a positive retryAfter;
a call after the window has elapsed succeeds again; and every rejection
happens before the operation starts, leaving the state unchanged. -/
theorem rate_limit_three_per_window (actor action : String) :
    (∃ ra, 0 < ra ∧
      (runCalls threePerTenState actor action GuardOptions.default
          [0, 1, 2, 3, 10000]).1 =
        [.started, .started, .started, .rejected (.rateLimited ra),
         .started]) ∧
    ∀ (s s2 : ProtState) (a act : String) (o : GuardOptions) (n : Nat)
      (e : ProtError),
      guardStart s a act o n = (.rejected e, s2) → s2 = s := by
  constructor
  · refine ⟨10, by decide, ?_⟩
    simp [runCalls, callAndSettle, guardStart, guardSettle, isInflight,
      recentHits, limitFor, minTime, retryAfterSec, threePerTenState,
      GuardOptions.default]
  · intro s s2 a act o n e h
    unfold guardStart at h
    split at h
    · exact (congrArg Prod.snd h).symm
    · split at h
      · exact (congrArg Prod.snd h).symm
      · exact absurd (congrArg Prod.fst h) (by simp)

/-- C3 witness: the general rejection clause applied to a concrete rejected
call — the state coming out of a rejected call is the state that went in. -/
theorem rate_limit_three_per_window_witness :
    (guardStart
        { inflight := [⟨"u", "act", "", 5000⟩], hits := [], limits := [],
          defaultLimit := 3, windowMs := 10000 }
        "u" "act" GuardOptions.default 1).2 =
      { inflight := [⟨"u", "act", "", 5000⟩], hits := [], limits := [],
        defaultLimit := 3, windowMs := 10000 } :=
  (rate_limit_three_per_window "u" "act").2
    { inflight := [⟨"u", "act", "", 5000⟩], hits := [], limits := [],
      defaultLimit := 3, windowMs := 10000 }
    (guardStart
      { inflight := [⟨"u", "act", "", 5000⟩], hits := [], limits := [],
        defaultLimit := 3, windowMs := 10000 }
      "u" "act" GuardOptions.default 1).2
    "u" "act" GuardOptions.default 1 .requestDuplicate rfl

/-- C10: protect called without an options argument applies the documented
defaults: duplicate detection on, rate limiting on, the default rate limit
(customLimit null), a 5000 ms duplicate-tracking duration, and empty extra
data. -/
theorem protect_default_options (s : ProtState) (actor action : String)
    (now : Nat) :
    protect s actor action none now =
      guardStart s actor action GuardOptions.default now ∧
    GuardOptions.default.checkDuplicate = true ∧
    GuardOptions.default.checkRateLimit = true ∧
    GuardOptions.default.customLimit = none ∧
    GuardOptions.default.duration = 5000 ∧
    GuardOptions.default.data = "" :=
  ⟨rfl, rfl, rfl, rfl, rfl, rfl⟩

end CoreBot
